import Mathlib

/-
Verification development for the rusty_rpc repository.

The embedding follows the source files:
  rusty_rpc_lib/src/messages.rs          (wire message types)
  rusty_rpc_lib/src/server_collection.rs (registry, id allocator, entry drop)
  rusty_rpc_lib/src/lib.rs               (handle_connection dispatch loop)
  rusty_rpc_macro/src/interface.rs       (interface data model: BTreeMap-keyed
                                          services, structs and methods)
  rusty_rpc_macro/src/lib.rs             (generated client proxy and server
                                          dispatch code)

Machine integers are modelled as Nat with explicit reduction modulo 2^64
where the Rust code wraps.  Byte strings are List Nat with every element
below 256.  Rust identifiers (interface.rs: Identifier(pub String), ordered
by the derived Ord, i.e. lexicographically on the character sequence) are
modelled as their character-code sequences, List Nat, ordered by the
lexicographic order on lists, which agrees with Rust's String order.
-/

set_option maxHeartbeats 1000000

/-- 2^64, the wrap-around modulus of Rust u64 arithmetic
(`AtomicU64::fetch_add` and `u64::wrapping_add` in the source). -/
def U64MOD : Nat := 18446744073709551616

/-- messages.rs: `pub struct ServiceId(pub u64)`. -/
abbrev ServiceId := Nat

/-- messages.rs: `pub struct MethodId(pub u64)`. -/
abbrev MethodId := Nat

/-- messages.rs: `ServiceId::increment`, `self.0 = self.0.wrapping_add(1)`. -/
def serviceIdIncrement (sid : ServiceId) : ServiceId :=
  (sid + 1) % U64MOD

/-- messages.rs: `pub enum ReturnValue { Data(Vec<u8>), Service(ServiceId) }`. -/
inductive ReturnValue where
  | data (bytes : List Nat)
  | service (sid : ServiceId)
  deriving DecidableEq

/-- messages.rs: `pub enum ServerMessage { DropServiceDone, MethodReturned(ReturnValue) }`. -/
inductive ServerMessage where
  | dropServiceDone
  | methodReturned (value : ReturnValue)
  deriving DecidableEq

/-- messages.rs: `pub enum ClientMessage { DropService(ServiceId), CallMethod(ServiceId, MethodId, MethodArgs) }`
with `MethodArgs(pub Vec<u8>)` inlined as the byte list. -/
inductive ClientMessage where
  | dropService (sid : ServiceId)
  | callMethod (sid : ServiceId) (mid : MethodId) (args : List Nat)
  deriving DecidableEq

/-- Modelled from the spec: the byte-level wire codec.  In the source the
codec is `rmp_serde` (messages.rs, `TryFrom<Bytes>` and `From<... > for
Bytes`), an external crate that is not part of this repository; the spec
declares the exact byte format an implementation freedom so long as it is a
pure, round-tripping, failure-detecting encoding of the declared tag unions.
`encU64` encodes an in-range u64 as 8 little-endian base-256 digits. -/
def encU64 (n : Nat) : List Nat :=
  [n % 256, n / 256 % 256, n / 65536 % 256, n / 16777216 % 256,
   n / 4294967296 % 256, n / 1099511627776 % 256,
   n / 281474976710656 % 256, n / 72057594037927936 % 256]

/-- Modelled from the spec: decoder for `encU64`.  Accepts exactly eight
bytes, each below 256, and is the two-sided inverse of `encU64`. -/
def decU64 : List Nat → Option Nat
  | [b0, b1, b2, b3, b4, b5, b6, b7] =>
    if b0 < 256 ∧ b1 < 256 ∧ b2 < 256 ∧ b3 < 256 ∧
       b4 < 256 ∧ b5 < 256 ∧ b6 < 256 ∧ b7 < 256 then
      some (b0 + 256 * b1 + 65536 * b2 + 16777216 * b3 +
            4294967296 * b4 + 1099511627776 * b5 +
            281474976710656 * b6 + 72057594037927936 * b7)
    else none
  | _ => none

/-- A byte list is valid when every element is below 256. -/
def bytesOk (l : List Nat) : Bool :=
  l.all (· < 256)

/-- A ClientMessage is in range when its u64 fields are below 2^64 and its
argument payload is a valid byte list. -/
def clientMessageInRange : ClientMessage → Bool
  | .dropService sid => decide (sid < U64MOD)
  | .callMethod sid mid args =>
    decide (sid < U64MOD) && decide (mid < U64MOD) && bytesOk args

/-- A ServerMessage is in range when its u64 fields are below 2^64 and its
data payload is a valid byte list. -/
def serverMessageInRange : ServerMessage → Bool
  | .dropServiceDone => true
  | .methodReturned (.data bytes) => bytesOk bytes
  | .methodReturned (.service sid) => decide (sid < U64MOD)

/-- Modelled from the spec: encoder for the `ClientMessage` tag union
(variant tag byte, then the fields; the argument bytes extend to the end of
the length-delimited frame). -/
def encodeClientMessage : ClientMessage → List Nat
  | .dropService sid => 0 :: encU64 sid
  | .callMethod sid mid args => 1 :: (encU64 sid ++ (encU64 mid ++ args))

/-- Modelled from the spec: decoder for the `ClientMessage` tag union.
Returns `none` (the `Malformed` failure, with no partial result) on any
byte list that is not an exact encoding. -/
def decodeClientMessage : List Nat → Option ClientMessage
  | [] => none
  | 0 :: rest => (decU64 rest).map ClientMessage.dropService
  | 1 :: rest =>
    match decU64 (rest.take 8), decU64 ((rest.drop 8).take 8) with
    | some sid, some mid =>
      if bytesOk (rest.drop 16) then
        some (.callMethod sid mid (rest.drop 16))
      else none
    | _, _ => none
  | (_ + 2) :: _ => none

/-- Modelled from the spec: encoder for the `ServerMessage` tag union. -/
def encodeServerMessage : ServerMessage → List Nat
  | .dropServiceDone => [0]
  | .methodReturned (.data bytes) => 1 :: 0 :: bytes
  | .methodReturned (.service sid) => 1 :: 1 :: encU64 sid

/-- Modelled from the spec: decoder for the `ServerMessage` tag union. -/
def decodeServerMessage : List Nat → Option ServerMessage
  | [] => none
  | 0 :: rest => if rest.isEmpty then some .dropServiceDone else none
  | 1 :: rest =>
    match rest with
    | [] => none
    | 0 :: bytes =>
      if bytesOk bytes then some (.methodReturned (.data bytes)) else none
    | 1 :: bytes =>
      (decU64 bytes).map (fun sid => .methodReturned (.service sid))
    | (_ + 2) :: _ => none
  | (_ + 2) :: _ => none

/-- server_collection.rs: `ServerEntry`.  The two source fields are the boxed
server object `server_` (an opaque trait object whose behaviour enters the
model through `MethodKind` below) and `parent_guard: Option<ServerGuard>`,
the held lock on the parent's cell.  A guard is modelled by the ServiceId of
the entry it locks; `ServerEntry::drop` releases the guard, which in the
model is the disappearance of the entry (and hence of its `parentGuard`
field) from the registry. -/
structure ServerEntry where
  parentGuard : Option ServiceId
  deriving DecidableEq

/-- server_collection.rs: `ServerCollection { active_services: Mutex<HashMap<ServiceId, Arc<Mutex<ServerEntry>>>>, next_service_id: AtomicU64 }`.
The hash map is modelled as an association list; the connection loop is
sequential, so the outer mutex always succeeds and is dropped from the
model. -/
structure ServerCollection where
  activeServices : List (ServiceId × ServerEntry)
  nextServiceId : Nat
  deriving DecidableEq

/-- server_collection.rs: `ServerCollection::new()`. -/
def ServerCollection.new : ServerCollection :=
  ⟨[], 0⟩

/-- The set of registered ids (the hash map's key set). -/
def serviceIds (s : ServerCollection) : List ServiceId :=
  s.activeServices.map Prod.fst

/-- server_collection.rs: the id-probing loop of `register_service` combined
with `get_and_increment_next_service_id` (an `AtomicU64::fetch_add(1)`,
which wraps on overflow).  Each probe returns the current counter and
advances it modulo 2^64; the loop retries while the probed id is occupied.
The source loops forever if every id is taken (a comment there notes memory
runs out first); the model makes the recursion total with a fuel parameter
and returns `none` when the fuel is exhausted. -/
def allocId (used : List ServiceId) : Nat → Nat → Option (ServiceId × Nat)
  | _, 0 => none
  | c, fuel + 1 =>
    if used.contains (c % U64MOD) then
      allocId used ((c + 1) % U64MOD) fuel
    else
      some (c % U64MOD, (c + 1) % U64MOD)

/-- server_collection.rs: `register_service`.  Allocates an unused id with
the probing loop and inserts a new entry holding the (optional) parent
guard; returns the id. -/
def registerService (s : ServerCollection) (guard : Option ServiceId) (fuel : Nat) :
    Option (ServiceId × ServerCollection) :=
  match allocId (serviceIds s) s.nextServiceId fuel with
  | none => none
  | some (id, c') =>
    some (id, ⟨s.activeServices ++ [(id, ⟨guard⟩)], c'⟩)

/-- lib.rs handle_connection: the connection state right after the initial
service is registered at id 0 (`register_service(Box::new(T::default()), None)`
followed by `assert_eq!(initial_service_id.0, 0)`). -/
def initialCollection : ServerCollection :=
  ⟨[(0, ⟨none⟩)], 1⟩

/-- lib.rs / server_collection.rs: a cell is locked exactly when some live
entry stores the held lock of that cell as its `parent_guard` (the guard is
created by `try_lock` in handle_connection and either dropped before the
reply, for data-returning methods, or stored in the new child entry, for
service-returning methods; between messages these stored guards are the
only outstanding locks). -/
def entryLocked (s : ServerCollection) (sid : ServiceId) : Bool :=
  s.activeServices.any (fun p => p.2.parentGuard == some sid)

/-- Ways the dispatch loop of lib.rs terminates a connection.
`invalidServiceId sid` is the io::Error built from
"Invalid service ID: {sid}" (both the DropService and the CallMethod arm);
`serviceBusyPanic` is the panic
"Service somehow in use while trying to call a method on it." raised when
`try_lock` fails on the target cell. -/
inductive Fatal where
  | invalidServiceId (sid : ServiceId)
  | serviceBusyPanic
  deriving DecidableEq

/-- Result of handling one client message in handle_connection: either a new
state plus the reply written to the socket, or a connection-terminating
failure.  `noFuel` is the model artifact for exhausting the fuel of the id
allocator (the source would keep probing). -/
inductive StepResult where
  | ok (s : ServerCollection) (reply : ServerMessage)
  | fatal (e : Fatal)
  | noFuel
  deriving DecidableEq

/-- Abstraction of the generated typed handler
(`parse_and_call_method_locally`, rusty_rpc_macro/src/lib.rs): a method
either returns data — the generated branch drops the self guard and replies
with the serialized value, abstracted as `payload` — or returns a service —
the generated branch registers the returned server with the just-acquired
self guard as the child's parent guard. -/
inductive MethodKind where
  | dataReturning (payload : List Nat)
  | serviceReturning
  deriving DecidableEq

/-- lib.rs: the body of the `while let` dispatch loop of handle_connection,
for one decoded ClientMessage.

DropService arm: `remove_service_entry_arc`, failing with the
"Invalid service ID" io::Error when absent; the `Arc::try_unwrap(..).expect`
single-ownership assertion always passes here because the sequential loop
holds no other Arc clone between messages; the entry is destroyed (its
stored parent guard is dropped with it, unlocking the parent) and the reply
is DropServiceDone.

CallMethod arm: `get_service_entry_arc`, failing with the same io::Error
when absent; then `try_lock`, panicking with the service-busy message when
the cell is already locked by a live child's guard; then the typed handler
runs as described at `MethodKind`. -/
def handleMessage (s : ServerCollection) (m : ClientMessage) (k : MethodKind)
    (fuel : Nat) : StepResult :=
  match m with
  | .dropService sid =>
    if (serviceIds s).contains sid then
      .ok ⟨s.activeServices.filter (fun p => p.1 != sid), s.nextServiceId⟩
        .dropServiceDone
    else
      .fatal (.invalidServiceId sid)
  | .callMethod sid _mid _args =>
    if (serviceIds s).contains sid then
      if entryLocked s sid then
        .fatal .serviceBusyPanic
      else
        match k with
        | .dataReturning payload =>
          .ok s (.methodReturned (.data payload))
        | .serviceReturning =>
          match registerService s (some sid) fuel with
          | none => .noFuel
          | some (newSid, s') =>
            .ok s' (.methodReturned (.service newSid))
    else
      .fatal (.invalidServiceId sid)

/-- Runs the dispatch loop over a list of messages (each with the kind of
handler the addressed method has, and an allocator fuel), succeeding only
when every step replies normally. -/
def runMessages (s : ServerCollection) :
    List (ClientMessage × MethodKind × Nat) → Option ServerCollection
  | [] => some s
  | (m, k, fuel) :: rest =>
    match handleMessage s m k fuel with
    | .ok s' _ => runMessages s' rest
    | _ => none

/-- Teardown order check for C7: in a drop order (list of ids, first dropped
first), every entry holding a parent guard must be destroyed strictly before
the entry it locks, whenever that parent is itself in the registry. -/
def childBeforeParent (order : List ServiceId)
    (entries : List (ServiceId × ServerEntry)) : Bool :=
  entries.all (fun ce =>
    match ce.2.parentGuard with
    | some p =>
      if (entries.map Prod.fst).contains p then
        decide (order.indexOf ce.1 < order.indexOf p)
      else true
    | none => true)

/-- rusty_rpc_macro/src/lib.rs, generated `#service_proxy_name` struct:
`service_id`, a shared `stream_sink` handle (left abstract; the wire
messages a call produces are returned explicitly below), and the
`is_closed: AtomicBool` flag, initially false in `from_service_id`. -/
structure ServiceProxy where
  serviceId : ServiceId
  isClosed : Bool
  deriving DecidableEq

/-- Outcome of the generated `close` method.  `closedTwiceError` is the
io::Error "Service proxy closed twice." from the failed compare_exchange;
`serverClosedError` is the io::Error raised when the stream yields no reply;
`wrongReplyPanic` is the panic
"Server sent return value instead of confirmation for dropped service.". -/
inductive CloseOutcome where
  | success
  | closedTwiceError
  | serverClosedError
  | wrongReplyPanic
  deriving DecidableEq

/-- rusty_rpc_macro/src/lib.rs, generated `close`:
`is_closed.compare_exchange(false, true, ..)` — on failure the method
returns the "closed twice" error before anything is sent; on success it
sends `DropService(service_id)` and awaits the reply, requiring
`DropServiceDone`.  The returned triple is (proxy after the call, outcome,
client messages written to the wire, in order). -/
def closeProxy (p : ServiceProxy) (response : Option ServerMessage) :
    ServiceProxy × CloseOutcome × List ClientMessage :=
  if p.isClosed then
    (p, .closedTwiceError, [])
  else
    let p' : ServiceProxy := ⟨p.serviceId, true⟩
    match response with
    | none => (p', .serverClosedError, [.dropService p.serviceId])
    | some .dropServiceDone => (p', .success, [.dropService p.serviceId])
    | some (.methodReturned _) => (p', .wrongReplyPanic, [.dropService p.serviceId])

/-- Outcome of the generated `Drop` impl for a proxy.  `panicUnclosed` is
the panic "Service proxy dropped without being closed". -/
inductive DropOutcome where
  | returns
  | panicUnclosed
  deriving DecidableEq

/-- rusty_rpc_macro/src/lib.rs, generated `impl Drop`: return immediately
when the thread is already panicking; otherwise panic when `is_closed` is
still false. -/
def dropProxy (p : ServiceProxy) (threadPanicking : Bool) : DropOutcome :=
  if threadPanicking then
    .returns
  else if !p.isClosed then
    .panicUnclosed
  else
    .returns

/-- Outcome of the generated server-side method dispatch.
`invalidMethodIdPanic` is the panic "Client sent invalid method_id." of the
final else branch. -/
inductive DispatchOutcome where
  | reply (m : ServerMessage)
  | invalidMethodIdPanic
  deriving DecidableEq

/-- rusty_rpc_macro/src/lib.rs, generated
`_rusty_rpc_forward__parse_and_call_method_locally`: a chain of
`if method_id.0 == i { .. } else` branches, one per method with consecutive
literal indices starting from `i`, ending in the invalid-method-id panic.
Each branch is abstracted by the ServerMessage it would reply. -/
def dispatchChain (branches : List ServerMessage) (i : Nat) (mid : MethodId) :
    DispatchOutcome :=
  match branches with
  | [] => .invalidMethodIdPanic
  | b :: rest => if mid = i then .reply b else dispatchChain rest (i + 1) mid

/-- interface.rs identifiers: `Identifier(pub String)` with the derived
`Ord`, i.e. lexicographic order on the character sequence; modelled as the
sequence of character codes under the lexicographic list order. -/
abbrev Ident := List Nat

/-- Insertion into a `BTreeMap` modelled as a key-sorted association list.
Returns `none` on a duplicate key: the parser (rusty_rpc_macro/src/parser.rs)
rejects an interface file with a duplicate method, field or definition name,
so a successfully parsed interface corresponds exactly to a `some` result. -/
def btreeInsert {κ α : Type} [DecidableEq κ] [LT κ] [∀ a b : κ, Decidable (a < b)]
    (k : κ) (v : α) : List (κ × α) → Option (List (κ × α))
  | [] => some [(k, v)]
  | (k', v') :: rest =>
    if k < k' then
      some ((k, v) :: (k', v') :: rest)
    else if k = k' then
      none
    else
      match btreeInsert k v rest with
      | none => none
      | some r => some ((k', v') :: r)

/-- Inserts a declaration list into a `BTreeMap`, left to right, as the
parser does while folding the parsed definition vector into the map. -/
def btreeAddAll {κ α : Type} [DecidableEq κ] [LT κ] [∀ a b : κ, Decidable (a < b)]
    (acc : List (κ × α)) : List (κ × α) → Option (List (κ × α))
  | [] => some acc
  | (k, v) :: rest =>
    match btreeInsert k v acc with
    | none => none
    | some acc' => btreeAddAll acc' rest

/-- interface.rs: builds the `BTreeMap` from a declaration-ordered list
(service methods, struct fields).  The result, when defined, holds the same
bindings re-ordered by key. -/
def btreeOfList {κ α : Type} [DecidableEq κ] [LT κ] [∀ a b : κ, Decidable (a < b)]
    (decls : List (κ × α)) : Option (List (κ × α)) :=
  btreeAddAll [] decls

/-- rusty_rpc_macro/src/lib.rs, code_for_service: both the proxy methods and
the dispatch branches are generated by enumerating `service.methods`
(interface.rs: a `BTreeMap<Identifier, Method>`), so the MethodId of a
method is its position in the key-ordered map built from the declaration
list.  Returns the (name, MethodId) pairs, or `none` for a declaration list
the parser would reject. -/
def serviceMethodIds {α : Type} (declMethods : List (Ident × α)) :
    Option (List (Ident × Nat)) :=
  (btreeOfList declMethods).map
    (fun sorted => sorted.enum.map (fun p => (p.2.1, p.1)))

/-- rusty_rpc_macro/src/lib.rs, code_for_service: the method the generated
server dispatch chain runs for a given MethodId is the one at that position
of the enumerated `BTreeMap`. -/
def dispatchTargetAt {α : Type} (sorted : List (Ident × α)) (mid : MethodId) :
    Option Ident :=
  (sorted[mid]?).map Prod.fst

/-- interface.rs: `enum DataType { I32, Struct(Identifier) }` values, for
the value-marshaling claims: an i32, or a record with named field values. -/
inductive Value where
  | vi32 (n : Int)
  | vrec (fields : List (Ident × Value))

/-- Modelled from the spec: the value codec's i32 encoding,
"little-endian two's complement", four bytes.  (In the source the value
codec is the external `rmp_serde` crate, not part of this repository.) -/
def encI32 (n : Int) : List Nat :=
  let u := (n % 4294967296).toNat
  [u % 256, u / 256 % 256, u / 65536 % 256, u / 16777216 % 256]

mutual

/-- Modelled from the spec: the value codec's encoding of a single value;
a record is "the concatenation of its field encodings" in the order the
fields appear in the record value. -/
def encodeValue : Value → List Nat
  | .vi32 n => encI32 n
  | .vrec fields => encodeFields fields

/-- Concatenation of the field encodings of a field list, in list order. -/
def encodeFields : List (Ident × Value) → List Nat
  | [] => []
  | (_, v) :: rest => encodeValue v ++ encodeFields rest

end

/-- Concatenation of the encodings of a value tuple, in order. -/
def encodeValues : List Value → List Nat
  | [] => []
  | v :: rest => encodeValue v ++ encodeValues rest

/-- rusty_rpc_macro/src/lib.rs, code_for_struct: the generated Rust struct
lists the fields by enumerating `struct_.fields` (interface.rs: a
`BTreeMap<Identifier, DataType>`), and the derived serialization writes the
fields in that generated order.  So a record value whose fields were
declared in `declFields` order is encoded as the concatenation of its field
encodings in the key-ordered map's order (`none` for a field list the
parser would reject). -/
def encodeStructDeclared (declFields : List (Ident × Value)) :
    Option (List Nat) :=
  (btreeOfList declFields).map encodeFields

/-- The struct encoding the claim describes, read off the spec's words:
concatenation of the field encodings in declaration order. -/
def encodeStructSpecOrder (declFields : List (Ident × Value)) : List Nat :=
  encodeFields declFields

/-- rusty_rpc_macro/src/lib.rs, generated proxy method body:
`let arguments = (#(#param_names),*);` — the tuple of the method's
parameters in the order of `method_type.non_self_params`, a `Vec` that the
parser fills in declaration order (parser.rs, parse_method). -/
def proxyArgumentTuple (params : List (Ident × Value)) : List Value :=
  params.map Prod.snd

/-- Serialization of the argument tuple a proxy sends: the concatenation of
the element encodings of `proxyArgumentTuple`, i.e. positional, in method
declaration order. -/
def serializeArguments (params : List (Ident × Value)) : List Nat :=
  encodeValues (proxyArgumentTuple params)

/- Helper lemmas. -/

theorem encU64_bytesOk (n : Nat) : bytesOk (encU64 n) = true := by
  simp only [bytesOk, encU64, List.all_cons, List.all_nil, Bool.and_eq_true,
    decide_eq_true_eq, and_true]
  omega

theorem encU64_length (n : Nat) : (encU64 n).length = 8 := by
  simp [encU64]

theorem decU64_encU64 (n : Nat) (h : n < U64MOD) : decU64 (encU64 n) = some n := by
  simp only [U64MOD] at h
  simp only [encU64, decU64]
  rw [if_pos]
  · congr 1
    omega
  · refine ⟨?_, ?_, ?_, ?_, ?_, ?_, ?_, ?_⟩ <;> omega

theorem decU64_some {l : List Nat} {n : Nat} (h : decU64 l = some n) :
    l = encU64 n ∧ n < U64MOD := by
  rcases l with _ | ⟨b0, _ | ⟨b1, _ | ⟨b2, _ | ⟨b3, _ | ⟨b4, _ | ⟨b5, _ | ⟨b6, _ | ⟨b7, _ | ⟨b8, tl⟩⟩⟩⟩⟩⟩⟩⟩⟩ <;>
      simp [decU64] at h
  obtain ⟨⟨h0, h1, h2, h3, h4, h5, h6, h7⟩, hv⟩ := h
  subst hv
  constructor
  · simp only [encU64, List.cons.injEq, and_true]
    refine ⟨?_, ?_, ?_, ?_, ?_, ?_, ?_, ?_⟩ <;> omega
  · simp only [U64MOD]
    omega

/-- C4: wire-codec round trip.  For every in-range ClientMessage and
ServerMessage value m, decoding the encoding of m yields m back; decoding
bytes that are not a valid encoding of the declared tag union fails (the
`Malformed` error, `none`) with no partial result — a successful decode can
only come from the exact encoding of an in-range message.  The codec
functions are pure Lean functions.  The byte format itself is modelled from
the spec, the source delegating it to the external `rmp_serde` crate. -/
theorem C4_codec_round_trip :
    (∀ m, clientMessageInRange m = true →
      decodeClientMessage (encodeClientMessage m) = some m) ∧
    (∀ m, serverMessageInRange m = true →
      decodeServerMessage (encodeServerMessage m) = some m) ∧
    (∀ b m, decodeClientMessage b = some m →
      b = encodeClientMessage m ∧ clientMessageInRange m = true) ∧
    (∀ b m, decodeServerMessage b = some m →
      b = encodeServerMessage m ∧ serverMessageInRange m = true) := by
  refine ⟨?_, ?_, ?_, ?_⟩
  · intro m hm
    cases m with
    | dropService sid =>
      simp only [clientMessageInRange, decide_eq_true_eq] at hm
      simp only [encodeClientMessage, decodeClientMessage, decU64_encU64 sid hm,
        Option.map_some']
    | callMethod sid mid args =>
      simp only [clientMessageInRange, Bool.and_eq_true, decide_eq_true_eq] at hm
      obtain ⟨⟨hsid, hmid⟩, hargs⟩ := hm
      have h2 : (encU64 sid ++ (encU64 mid ++ args)).drop 8 = encU64 mid ++ args :=
        List.drop_left' (encU64_length sid)
      have h1 : (encU64 sid ++ (encU64 mid ++ args)).take 8 = encU64 sid :=
        List.take_left' (encU64_length sid)
      have h3 : ((encU64 sid ++ (encU64 mid ++ args)).drop 8).take 8 = encU64 mid := by
        rw [h2]
        exact List.take_left' (encU64_length mid)
      have h4 : (encU64 sid ++ (encU64 mid ++ args)).drop 16 = args := by
        rw [show (16 : Nat) = 8 + 8 from rfl, ← List.drop_drop, h2]
        exact List.drop_left' (encU64_length mid)
      simp only [encodeClientMessage, decodeClientMessage, h1, h3, h4,
        decU64_encU64 sid hsid, decU64_encU64 mid hmid, hargs, if_true]
  · intro m hm
    cases m with
    | dropServiceDone => simp [encodeServerMessage, decodeServerMessage]
    | methodReturned rv =>
      cases rv with
      | data bytes =>
        simp only [serverMessageInRange] at hm
        simp [encodeServerMessage, decodeServerMessage, hm]
      | service sid =>
        simp only [serverMessageInRange, decide_eq_true_eq] at hm
        simp [encodeServerMessage, decodeServerMessage, decU64_encU64 sid hm]
  · intro b m h
    rcases b with _ | ⟨_ | _ | t, rest⟩
    · simp [decodeClientMessage] at h
    · simp only [decodeClientMessage, Option.map_eq_some'] at h
      obtain ⟨sid, hsid, rfl⟩ := h
      obtain ⟨hrest, hlt⟩ := decU64_some hsid
      subst hrest
      exact ⟨rfl, by simp [clientMessageInRange, hlt]⟩
    · rcases hsid : decU64 (rest.take 8) with _ | sid
      · simp [decodeClientMessage, hsid] at h
      rcases hmid : decU64 ((rest.drop 8).take 8) with _ | mid
      · simp [decodeClientMessage, hsid, hmid] at h
      simp only [decodeClientMessage, hsid, hmid] at h
      split at h
      · rename_i hok
        simp only [Option.some.injEq] at h
        subst h
        obtain ⟨ht8, hslt⟩ := decU64_some hsid
        obtain ⟨ht8', hmlt⟩ := decU64_some hmid
        constructor
        · simp only [encodeClientMessage, List.cons.injEq, true_and]
          conv_lhs => rw [← List.take_append_drop 8 rest]
          rw [ht8]
          congr 1
          conv_lhs => rw [← List.take_append_drop 8 (rest.drop 8)]
          rw [ht8', List.drop_drop]
        · simp [clientMessageInRange, hslt, hmlt, hok]
      · exact absurd h (by simp)
    · simp [decodeClientMessage] at h
  · intro b m h
    rcases b with _ | ⟨_ | _ | t, rest⟩
    · simp [decodeServerMessage] at h
    · simp only [decodeServerMessage] at h
      split at h
      · rename_i hempty
        simp only [Option.some.injEq] at h
        subst h
        rw [List.isEmpty_iff] at hempty
        subst hempty
        exact ⟨rfl, rfl⟩
      · exact absurd h (by simp)
    · rcases rest with _ | ⟨_ | _ | u, bytes⟩
      · simp [decodeServerMessage] at h
      · simp only [decodeServerMessage] at h
        split at h
        · rename_i hok
          simp only [Option.some.injEq] at h
          subst h
          exact ⟨rfl, by simpa [serverMessageInRange] using hok⟩
        · exact absurd h (by simp)
      · simp only [decodeServerMessage, Option.map_eq_some'] at h
        obtain ⟨sid, hsid, rfl⟩ := h
        obtain ⟨hb, hlt⟩ := decU64_some hsid
        subst hb
        exact ⟨rfl, by simp [serverMessageInRange, hlt]⟩
      · simp [decodeServerMessage] at h
    · simp [decodeServerMessage] at h

/-- Witness for C4 at a concrete in-range message. -/
theorem C4_codec_round_trip_witness :
    decodeClientMessage (encodeClientMessage (.callMethod 3 1 [7, 255])) =
      some (.callMethod 3 1 [7, 255]) :=
  C4_codec_round_trip.1 (.callMethod 3 1 [7, 255]) (by decide)

/-- Partial correctness of the id-probing loop: a returned id is never one
that is still registered. -/
theorem allocId_not_used : ∀ (fuel : Nat) (used : List ServiceId) (c id c' : Nat),
    allocId used c fuel = some (id, c') → id ∉ used := by
  intro fuel
  induction fuel with
  | zero =>
    intro used c id c' h
    simp [allocId] at h
  | succ n ih =>
    intro used c id c' h
    simp only [allocId] at h
    split at h
    · exact ih used _ id c' h
    · rename_i hc
      simp only [Option.some.injEq, Prod.mk.injEq] at h
      obtain ⟨rfl, rfl⟩ := h
      intro hmem
      exact hc (by simpa using hmem)

/-- Termination of the id-probing loop: when some id reachable within the
fuel is free, the loop returns a result. -/
theorem allocId_isSome : ∀ (fuel : Nat) (used : List ServiceId) (c : Nat),
    (∃ j, j < fuel ∧ (c + j) % U64MOD ∉ used) →
    (allocId used c fuel).isSome = true := by
  intro fuel
  induction fuel with
  | zero =>
    intro used c h
    obtain ⟨j, hj, _⟩ := h
    omega
  | succ n ih =>
    intro used c h
    obtain ⟨j, hj, hfree⟩ := h
    simp only [allocId]
    split
    · rename_i hc
      apply ih
      have hj0 : j ≠ 0 := by
        rintro rfl
        simp only [Nat.add_zero] at hfree
        exact hfree (by simpa using hc)
      refine ⟨j - 1, by omega, ?_⟩
      have hsh : ((c + 1) % U64MOD + (j - 1)) % U64MOD = (c + j) % U64MOD := by
        rw [Nat.mod_add_mod]
        congr 1
        omega
      rw [hsh]
      exact hfree
    · simp

/-- C5: identifier allocation.  The allocator starts at 0: on the fresh
per-connection collection the first registration returns id 0, the reserved
initial-service id (matching the `assert_eq!(initial_service_id.0, 0)` in
handle_connection).  A probe returns the current counter when that id is
absent from the registry, otherwise it advances the counter with 64-bit
wrap-around and retries, so any id it returns is absent from the registry —
collisions with still-live ids are skipped — and the loop reaches a free id
whenever one is within the supplied fuel. -/
theorem C5_id_allocation :
    (∀ guard fuel, registerService ServerCollection.new guard (fuel + 1) =
        some (0, ⟨[(0, ⟨guard⟩)], 1⟩)) ∧
    (∀ (used : List ServiceId) (c fuel : Nat), c % U64MOD ∉ used →
        allocId used c (fuel + 1) = some (c % U64MOD, (c + 1) % U64MOD)) ∧
    (∀ (used : List ServiceId) (c fuel : Nat), c % U64MOD ∈ used →
        allocId used c (fuel + 1) = allocId used ((c + 1) % U64MOD) fuel) ∧
    (∀ (used : List ServiceId) (c fuel id c' : Nat),
        allocId used c fuel = some (id, c') → id ∉ used) ∧
    (∀ (used : List ServiceId) (c fuel : Nat),
        (∃ j, j < fuel ∧ (c + j) % U64MOD ∉ used) →
        (allocId used c fuel).isSome = true) := by
  refine ⟨?_, ?_, ?_, ?_, ?_⟩
  · intro guard fuel
    simp [registerService, ServerCollection.new, serviceIds, allocId, U64MOD]
  · intro used c fuel h
    have h' : used.contains (c % U64MOD) = false := by
      simpa using h
    simp only [allocId, h']
    simp
  · intro used c fuel h
    have h' : used.contains (c % U64MOD) = true := by
      simpa using h
    simp only [allocId, h']
    simp
  · intro used c fuel id c' h
    exact allocId_not_used fuel used c id c' h
  · intro used c fuel h
    exact allocId_isSome fuel used c h

/-- Witness for C5: the very first registration of a fresh connection
returns id 0. -/
theorem C5_id_allocation_witness :
    registerService ServerCollection.new none 1 = some (0, ⟨[(0, ⟨none⟩)], 1⟩) :=
  C5_id_allocation.1 none 0

/-- Key membership in an association list. -/
theorem mem_map_fst {α β : Type} {l : List (α × β)} {a : α} :
    a ∈ l.map Prod.fst ↔ ∃ b, (a, b) ∈ l := by
  induction l with
  | nil => simp
  | cons hd tl ih =>
    rcases hd with ⟨x, y⟩
    simp only [List.map_cons, List.mem_cons, ih, Prod.mk.injEq]
    constructor
    · rintro (rfl | ⟨b, hb⟩)
      · exact ⟨y, Or.inl ⟨rfl, rfl⟩⟩
      · exact ⟨b, Or.inr hb⟩
    · rintro ⟨b, (⟨rfl, rfl⟩ | hb)⟩
      · exact Or.inl rfl
      · exact Or.inr ⟨b, hb⟩

/-- An id is registered exactly when some entry is stored under it. -/
theorem mem_serviceIds {s : ServerCollection} {sid : ServiceId} :
    sid ∈ serviceIds s ↔ ∃ e, (sid, e) ∈ s.activeServices :=
  mem_map_fst

/-- A cell is locked when a live entry stores its guard. -/
theorem entryLocked_true {s : ServerCollection} {c p : ServiceId} {e : ServerEntry}
    (hm : (c, e) ∈ s.activeServices) (hg : e.parentGuard = some p) :
    entryLocked s p = true := by
  rw [entryLocked, List.any_eq_true]
  exact ⟨(c, e), hm, by simp [hg]⟩

/-- A cell with no live guard-holder is unlocked. -/
theorem entryLocked_false {s : ServerCollection} {p : ServiceId}
    (h : ∀ q ∈ s.activeServices, q.2.parentGuard ≠ some p) :
    entryLocked s p = false := by
  rw [entryLocked, List.any_eq_false]
  intro q hq
  simp [h q hq]

/-- Shape of a successful registration. -/
theorem registerService_some {s : ServerCollection} {g : Option ServiceId} {fuel : Nat}
    {id : ServiceId} {s' : ServerCollection}
    (h : registerService s g fuel = some (id, s')) :
    ∃ c', allocId (serviceIds s) s.nextServiceId fuel = some (id, c') ∧
      s' = ⟨s.activeServices ++ [(id, ⟨g⟩)], c'⟩ := by
  rcases halloc : allocId (serviceIds s) s.nextServiceId fuel with _ | ⟨id', c'⟩
  · simp only [registerService, halloc] at h
    exact absurd h (by simp)
  · simp only [registerService, halloc, Option.some.injEq, Prod.mk.injEq] at h
    obtain ⟨rfl, rfl⟩ := h
    exact ⟨c', rfl, rfl⟩

/-- Shape of a service-returning call that succeeded: the target was
registered and unlocked, and the new child entry stores the guard on the
target as its parent guard. -/
theorem handleMessage_service_ok {s s1 : ServerCollection} {sid : ServiceId}
    {mid : Nat} {args : List Nat} {fuel : Nat} {reply : ServerMessage}
    (h : handleMessage s (.callMethod sid mid args) .serviceReturning fuel =
      .ok s1 reply) :
    ∃ newSid c',
      registerService s (some sid) fuel = some (newSid, s1) ∧
      s1 = ⟨s.activeServices ++ [(newSid, ⟨some sid⟩)], c'⟩ ∧
      reply = .methodReturned (.service newSid) ∧
      sid ∈ serviceIds s ∧ entryLocked s sid = false := by
  simp only [handleMessage] at h
  split at h
  · rename_i hc
    split at h
    · exact absurd h (by simp)
    · rename_i hl
      rcases hreg : registerService s (some sid) fuel with _ | ⟨newSid, s2⟩
      · simp only [hreg] at h
        exact absurd h (by simp)
      · simp only [hreg, StepResult.ok.injEq] at h
        obtain ⟨rfl, rfl⟩ := h
        obtain ⟨c', -, hshape⟩ := registerService_some hreg
        exact ⟨newSid, c', rfl, hshape, rfl, by simpa using hc,
          Bool.not_eq_true _ ▸ hl⟩
  · exact absurd h (by simp)

/-- One successful step keeps any entry it was not asked to drop. -/
theorem handleMessage_preserves_entry {s s' : ServerCollection} {m : ClientMessage}
    {k : MethodKind} {fuel : Nat} {reply : ServerMessage} {c : ServiceId}
    {e : ServerEntry}
    (h : handleMessage s m k fuel = .ok s' reply)
    (hmem : (c, e) ∈ s.activeServices)
    (hnot : m ≠ .dropService c) :
    (c, e) ∈ s'.activeServices := by
  cases m with
  | dropService sid =>
    simp only [handleMessage] at h
    split at h
    · simp only [StepResult.ok.injEq] at h
      obtain ⟨rfl, -⟩ := h
      refine List.mem_filter.mpr ⟨hmem, ?_⟩
      simp only [bne_iff_ne, ne_eq]
      intro hh
      exact hnot (congrArg ClientMessage.dropService hh.symm)
    · exact absurd h (by simp)
  | callMethod sid mid args =>
    simp only [handleMessage] at h
    split at h
    · split at h
      · exact absurd h (by simp)
      · cases k with
        | dataReturning payload =>
          simp only [StepResult.ok.injEq] at h
          obtain ⟨rfl, -⟩ := h
          exact hmem
        | serviceReturning =>
          rcases hreg : registerService s (some sid) fuel with _ | ⟨newSid, s2⟩
          · simp only [hreg] at h
            exact absurd h (by simp)
          · simp only [hreg, StepResult.ok.injEq] at h
            obtain ⟨rfl, -⟩ := h
            obtain ⟨c', -, rfl⟩ := registerService_some hreg
            exact List.mem_append_left _ hmem
    · exact absurd h (by simp)

/-- One successful step keeps any registered id it was not asked to drop. -/
theorem handleMessage_preserves_id {s s' : ServerCollection} {m : ClientMessage}
    {k : MethodKind} {fuel : Nat} {reply : ServerMessage} {p : ServiceId}
    (h : handleMessage s m k fuel = .ok s' reply)
    (hid : p ∈ serviceIds s)
    (hnot : m ≠ .dropService p) :
    p ∈ serviceIds s' := by
  obtain ⟨e, he⟩ := mem_serviceIds.mp hid
  exact mem_serviceIds.mpr ⟨e, handleMessage_preserves_entry h he hnot⟩

/-- Running a successful trace that never drops the child C nor the parent P
keeps C's guard entry and P's registration. -/
theorem runMessages_preserves {C P : ServiceId} :
    ∀ (ms : List (ClientMessage × MethodKind × Nat)) (s s' : ServerCollection),
    runMessages s ms = some s' →
    (C, ⟨some P⟩) ∈ s.activeServices →
    P ∈ serviceIds s →
    (∀ e ∈ ms, e.1 ≠ ClientMessage.dropService C) →
    (∀ e ∈ ms, e.1 ≠ ClientMessage.dropService P) →
    (C, ⟨some P⟩) ∈ s'.activeServices ∧ P ∈ serviceIds s' := by
  intro ms
  induction ms with
  | nil =>
    intro s s' h hm hp _ _
    simp only [runMessages, Option.some.injEq] at h
    subst h
    exact ⟨hm, hp⟩
  | cons hd tl ih =>
    intro s s' h hm hp hnC hnP
    rcases hd with ⟨m, k, fuel⟩
    simp only [runMessages] at h
    rcases hstep : handleMessage s m k fuel with ⟨s1, reply⟩ | e | _ <;>
      simp only [hstep] at h
    · have hm1 := handleMessage_preserves_entry hstep hm
        (hnC (m, k, fuel) (List.mem_cons_self _ _))
      have hp1 := handleMessage_preserves_id hstep hp
        (hnP (m, k, fuel) (List.mem_cons_self _ _))
      exact ih s1 s' h hm1 hp1
        (fun e he => hnC e (List.mem_cons_of_mem _ he))
        (fun e he => hnP e (List.mem_cons_of_mem _ he))
    · exact absurd h (by simp)
    · exact absurd h (by simp)

/-- A CallMethod on a registered but locked cell dies on the failed
`try_lock` (`expect("Service somehow in use ...")`). -/
theorem callMethod_busy {s : ServerCollection} {P : ServiceId} (mid : Nat)
    (args : List Nat) (k : MethodKind) (fuel : Nat)
    (hP : P ∈ serviceIds s) (hlock : entryLocked s P = true) :
    handleMessage s (.callMethod P mid args) k fuel = .fatal .serviceBusyPanic := by
  have hc : (serviceIds s).contains P = true := by simpa using hP
  simp only [handleMessage, hc, hlock]
  simp

/-- C1 (amended): nesting safety.  After a service-returning method call on
parent P yields child C — whose registry entry stores the just-acquired lock
on P's cell as its parent guard — every subsequent CallMethod targeting P,
sent before C is released and while P itself has not been dropped, fails the
server's service-busy check (the failed `try_lock`, terminating the
connection), because P's cell is still locked by C's guard. -/
theorem C1_nesting_safety (s s1 s2 : ServerCollection) (P C : ServiceId)
    (mid : Nat) (args : List Nat) (fuel : Nat)
    (ms : List (ClientMessage × MethodKind × Nat))
    (hcall : handleMessage s (.callMethod P mid args) .serviceReturning fuel =
      .ok s1 (.methodReturned (.service C)))
    (hrun : runMessages s1 ms = some s2)
    (hnoC : ∀ e ∈ ms, e.1 ≠ ClientMessage.dropService C)
    (hnoP : ∀ e ∈ ms, e.1 ≠ ClientMessage.dropService P) :
    ∀ (mid' : Nat) (args' : List Nat) (k' : MethodKind) (fuel' : Nat),
      handleMessage s2 (.callMethod P mid' args') k' fuel' =
        .fatal .serviceBusyPanic := by
  intro mid' args' k' fuel'
  obtain ⟨newSid, c', -, hshape, hreply, hPmem, -⟩ := handleMessage_service_ok hcall
  have hC : newSid = C := by
    injection hreply with h1
    injection h1 with h2
    exact h2.symm
  subst hC
  subst hshape
  have hm1 : (newSid, (⟨some P⟩ : ServerEntry)) ∈
      (s.activeServices ++ [(newSid, ⟨some P⟩)]) :=
    List.mem_append_right _ (List.mem_singleton.mpr rfl)
  have hp1 : P ∈ serviceIds (⟨s.activeServices ++ [(newSid, ⟨some P⟩)], c'⟩ :
      ServerCollection) := by
    obtain ⟨e, he⟩ := mem_serviceIds.mp hPmem
    exact mem_serviceIds.mpr ⟨e, List.mem_append_left _ he⟩
  obtain ⟨hm2, hp2⟩ := runMessages_preserves ms _ s2 hrun hm1 hp1 hnoC hnoP
  exact callMethod_busy mid' args' k' fuel' hp2 (entryLocked_true hm2 rfl)

/-- Witness for C1 at concrete inputs: on a fresh connection the
service-returning call on the initial service 0 creates child 1; the
immediately following call on 0 dies on the busy check. -/
theorem C1_nesting_safety_witness :
    handleMessage ⟨[(0, ⟨none⟩), (1, ⟨some 0⟩)], 2⟩ (.callMethod 0 0 [])
      (.dataReturning []) 1 = .fatal .serviceBusyPanic :=
  C1_nesting_safety initialCollection ⟨[(0, ⟨none⟩), (1, ⟨some 0⟩)], 2⟩
    ⟨[(0, ⟨none⟩), (1, ⟨some 0⟩)], 2⟩ 0 1 0 [] 1 []
    (by decide) rfl (by simp) (by simp) 0 [] (.dataReturning []) 1

/-- Counterexample to C1 as literally stated: the only stated side condition
is that C has not been released.  On a fresh connection, a service-returning
call on the initial service 0 yields child 1; the client then sends
`DropService(0)` for the parent itself, which the server accepts (the entry
is removed and `DropServiceDone` is returned, the child never having been
released); the subsequent CallMethod targeting parent 0 now fails the
unknown-service check ("Invalid service ID: 0"), not the service-busy
check. -/
theorem C1_nesting_safety_counterexample :
    handleMessage initialCollection (.callMethod 0 0 []) .serviceReturning 1 =
      .ok ⟨[(0, ⟨none⟩), (1, ⟨some 0⟩)], 2⟩ (.methodReturned (.service 1)) ∧
    handleMessage ⟨[(0, ⟨none⟩), (1, ⟨some 0⟩)], 2⟩ (.dropService 0)
      (.dataReturning []) 1 = .ok ⟨[(1, ⟨some 0⟩)], 2⟩ .dropServiceDone ∧
    handleMessage ⟨[(1, ⟨some 0⟩)], 2⟩ (.callMethod 0 0 []) (.dataReturning []) 1 =
      .fatal (.invalidServiceId 0) ∧
    Fatal.invalidServiceId 0 ≠ Fatal.serviceBusyPanic :=
  ⟨by decide, by decide, by decide, by decide⟩

/-- C2: release order for DropService.  When the dispatch loop receives
`DropService(sid)` it removes the entry from the registry, failing with the
unknown-service error (terminating the connection) when sid is absent;
otherwise the entry is destroyed — the `Arc::try_unwrap(..).expect`
single-ownership assertion always holds between messages of the sequential
loop, see `handleMessage` — which releases its stored parent guard, so a
parent P whose only guard-holder was the dropped child C is callable again;
and the reply is `DropServiceDone`. -/
theorem C2_drop_service :
    (∀ (s : ServerCollection) (sid : ServiceId) (k : MethodKind) (fuel : Nat),
      sid ∉ serviceIds s →
      handleMessage s (.dropService sid) k fuel = .fatal (.invalidServiceId sid)) ∧
    (∀ (s : ServerCollection) (sid : ServiceId) (k : MethodKind) (fuel : Nat),
      sid ∈ serviceIds s →
      handleMessage s (.dropService sid) k fuel =
        .ok ⟨s.activeServices.filter (fun p => p.1 != sid), s.nextServiceId⟩
          .dropServiceDone) ∧
    (∀ (s : ServerCollection) (C P : ServiceId) (mid fuel : Nat)
        (args payload : List Nat),
      P ∈ serviceIds s → P ≠ C →
      s.activeServices.all
        (fun q => (q.2.parentGuard != some P) || (q.1 == C)) = true →
      handleMessage ⟨s.activeServices.filter (fun p => p.1 != C), s.nextServiceId⟩
          (.callMethod P mid args) (.dataReturning payload) fuel =
        .ok ⟨s.activeServices.filter (fun p => p.1 != C), s.nextServiceId⟩
          (.methodReturned (.data payload))) := by
  refine ⟨?_, ?_, ?_⟩
  · intro s sid k fuel h
    have hc : (serviceIds s).contains sid = false := by simpa using h
    simp only [handleMessage, hc]
    simp
  · intro s sid k fuel h
    have hc : (serviceIds s).contains sid = true := by simpa using h
    simp only [handleMessage, hc]
    simp
  · intro s C P mid fuel args payload hP hPC hall
    have hP' : P ∈ serviceIds
        (⟨s.activeServices.filter (fun p => p.1 != C), s.nextServiceId⟩ :
          ServerCollection) := by
      obtain ⟨e, he⟩ := mem_serviceIds.mp hP
      refine mem_serviceIds.mpr ⟨e, List.mem_filter.mpr ⟨he, ?_⟩⟩
      simpa using hPC
    have hlock : entryLocked
        (⟨s.activeServices.filter (fun p => p.1 != C), s.nextServiceId⟩ :
          ServerCollection) P = false := by
      apply entryLocked_false
      intro q hq hg
      obtain ⟨hq1, hq2⟩ := List.mem_filter.mp hq
      have hq3 := List.all_eq_true.mp hall q hq1
      rw [Bool.or_eq_true] at hq3
      rcases hq3 with h1 | h1
      · exact bne_iff_ne.mp h1 hg
      · have hqc : q.1 = C := by simpa using h1
        rw [hqc] at hq2
        simp at hq2
    have hc : (serviceIds
        (⟨s.activeServices.filter (fun p => p.1 != C), s.nextServiceId⟩ :
          ServerCollection)).contains P = true := by
      simpa using hP'
    simp only [handleMessage, hc, hlock]
    simp

/-- Witness for C2: dropping child 1 (guard on parent 0) makes parent 0
callable again. -/
theorem C2_drop_service_witness :
    handleMessage ⟨[(0, ⟨none⟩)], 2⟩ (.callMethod 0 0 []) (.dataReturning [5]) 1 =
      .ok ⟨[(0, ⟨none⟩)], 2⟩ (.methodReturned (.data [5])) := by
  have h := C2_drop_service.2.2 ⟨[(0, ⟨none⟩), (1, ⟨some 0⟩)], 2⟩ 1 0 0 1 [] [5]
    (by decide) (by decide) (by decide)
  simpa using h

/-- C7 evaluated at the failing input.  When a connection terminates, the
`ServerCollection` is dropped and its `HashMap` drops the entry cells in the
map's unspecified iteration order (lib.rs creates the collection per
connection and nothing implements a custom drop order), so every permutation
of the key set is a drop order the code admits.  For the registry in which
entry 1 holds the parent guard over entry 0, the admissible order that drops
parent 0 first violates the leaves-first topological requirement: the child
entry is not destroyed before its parent's mutex is. -/
theorem C7_teardown_order_violation :
    List.Perm [0, 1] (serviceIds ⟨[(0, ⟨none⟩), (1, ⟨some 0⟩)], 2⟩) ∧
    childBeforeParent [0, 1] [(0, ⟨none⟩), (1, ⟨some 0⟩)] = false :=
  ⟨by decide, by decide⟩

/-- C8: double close.  `close()` compare-and-sets the `closed` flag from
false to true; on a proxy already closed, a second `close()` fails with the
"Service proxy closed twice." error and sends nothing on the wire, while a
first close marks the proxy closed and sends exactly the
`DropService(service_id)` message. -/
theorem C8_double_close :
    (∀ (p : ServiceProxy) (r : Option ServerMessage), p.isClosed = true →
      closeProxy p r = (p, .closedTwiceError, [])) ∧
    (∀ (p : ServiceProxy) (r : Option ServerMessage), p.isClosed = false →
      (closeProxy p r).1.isClosed = true ∧
      (closeProxy p r).2.2 = [.dropService p.serviceId]) := by
  constructor
  · intro p r h
    simp [closeProxy, h]
  · intro p r h
    cases r with
    | none => simp [closeProxy, h]
    | some m => cases m <;> simp [closeProxy, h]

/-- Witness for C8: a second close of proxy 7 errors and sends nothing. -/
theorem C8_double_close_witness :
    closeProxy ⟨7, true⟩ (some .dropServiceDone) =
      (⟨7, true⟩, .closedTwiceError, []) :=
  C8_double_close.1 ⟨7, true⟩ (some .dropServiceDone) rfl

/-- C9: drop without close.  Destroying a proxy whose closed flag is still
false panics ("Service proxy dropped without being closed"), except when the
thread is already unwinding from a panic, in which case the destructor
returns without panicking. -/
theorem C9_drop_without_close :
    ∀ (sid : ServiceId) (threadPanicking : Bool),
      dropProxy ⟨sid, false⟩ threadPanicking =
        (if threadPanicking then .returns else .panicUnclosed) := by
  intro sid tp
  cases tp <;> simp [dropProxy]

/-- The generated dispatch chain panics on any MethodId outside the probed
index window. -/
theorem dispatchChain_oob : ∀ (bs : List ServerMessage) (i mid : Nat),
    i + bs.length ≤ mid ∨ mid < i →
    dispatchChain bs i mid = .invalidMethodIdPanic := by
  intro bs
  induction bs with
  | nil => intro i mid h; rfl
  | cons b rest ih =>
    intro i mid h
    simp only [List.length_cons] at h
    have hne : ¬ mid = i := by rcases h with h | h <;> omega
    simp only [dispatchChain, if_neg hne]
    apply ih
    rcases h with h | h
    · exact Or.inl (by omega)
    · exact Or.inr (by omega)

/-- The generated dispatch chain replies from the branch whose index matches
the MethodId. -/
theorem dispatchChain_inrange :
    ∀ (bs : List ServerMessage) (i mid : Nat) (b : ServerMessage),
    i ≤ mid → bs[mid - i]? = some b →
    dispatchChain bs i mid = .reply b := by
  intro bs
  induction bs with
  | nil =>
    intro i mid b h hb
    simp at hb
  | cons hd rest ih =>
    intro i mid b h hb
    simp only [dispatchChain]
    by_cases he : mid = i
    · subst he
      simp only [Nat.sub_self, List.getElem?_cons_zero, Option.some.injEq] at hb
      subst hb
      simp
    · rw [if_neg he]
      apply ih (i + 1) mid b (by omega)
      have hsh : mid - i = (mid - (i + 1)) + 1 := by omega
      rw [hsh] at hb
      simpa using hb

/-- C10: every CallMethod whose MethodId equals none of the generated method
indices (which start at 0, so exactly the ids at or beyond the branch count)
makes the generated dispatcher take the final else branch and panic with
"Client sent invalid method_id." — it produces no ServerMessage and no
error reply — while every in-range MethodId reaches its branch and yields
that branch's reply. -/
theorem C10_invalid_method_id :
    (∀ (branches : List ServerMessage) (mid : MethodId),
      branches.length ≤ mid →
      dispatchChain branches 0 mid = .invalidMethodIdPanic) ∧
    (∀ (branches : List ServerMessage) (mid : MethodId) (b : ServerMessage),
      branches[mid]? = some b →
      dispatchChain branches 0 mid = .reply b) := by
  constructor
  · intro bs mid h
    exact dispatchChain_oob bs 0 mid (Or.inl (by omega))
  · intro bs mid b hb
    exact dispatchChain_inrange bs 0 mid b (Nat.zero_le _) (by simpa using hb)

/-- Witness for C10: a two-method service panics on MethodId 5. -/
theorem C10_invalid_method_id_witness :
    dispatchChain [.methodReturned (.data []), .dropServiceDone] 0 5 =
      .invalidMethodIdPanic :=
  C10_invalid_method_id.1 [.methodReturned (.data []), .dropServiceDone] 5
    (by decide)

/-- Everything in an insertion result is the new binding or an old one. -/
theorem btreeInsert_mem {κ α : Type} [DecidableEq κ] [LT κ]
    [∀ a b : κ, Decidable (a < b)] {k : κ} {v : α} :
    ∀ {acc acc' : List (κ × α)}, btreeInsert k v acc = some acc' →
      ∀ x ∈ acc', x = (k, v) ∨ x ∈ acc := by
  intro acc
  induction acc with
  | nil =>
    intro acc' h x hx
    simp only [btreeInsert, Option.some.injEq] at h
    subst h
    simp only [List.mem_singleton] at hx
    exact Or.inl hx
  | cons hd rest ih =>
    intro acc' h x hx
    rcases hd with ⟨k', v'⟩
    simp only [btreeInsert] at h
    split at h
    · simp only [Option.some.injEq] at h
      subst h
      simp only [List.mem_cons] at hx
      rcases hx with rfl | hx | hx
      · exact Or.inl rfl
      · exact Or.inr (by simp [hx])
      · exact Or.inr (by simp [hx])
    · split at h
      · exact absurd h (by simp)
      · rcases hrec : btreeInsert k v rest with _ | r
        · rw [hrec] at h
          exact absurd h (by simp)
        · rw [hrec] at h
          simp only [Option.some.injEq] at h
          subst h
          simp only [List.mem_cons] at hx
          rcases hx with rfl | hx
          · exact Or.inr (by simp)
          · rcases ih hrec x hx with h1 | h1
            · exact Or.inl h1
            · exact Or.inr (by simp [h1])

/-- Insertion into a key-sorted association list keeps it key-sorted. -/
theorem btreeInsert_sorted {κ α : Type} [DecidableEq κ] [LT κ]
    [∀ a b : κ, Decidable (a < b)]
    (htrans : ∀ a b c : κ, a < b → b < c → a < c)
    (htotal : ∀ a b : κ, a ≠ b → a < b ∨ b < a)
    {k : κ} {v : α} :
    ∀ {acc acc' : List (κ × α)},
      List.Pairwise (fun p q => p.1 < q.1) acc →
      btreeInsert k v acc = some acc' →
      List.Pairwise (fun p q => p.1 < q.1) acc' := by
  intro acc
  induction acc with
  | nil =>
    intro acc' _ h
    simp only [btreeInsert, Option.some.injEq] at h
    subst h
    simp
  | cons hd rest ih =>
    intro acc' hs h
    rcases hd with ⟨k', v'⟩
    rw [List.pairwise_cons] at hs
    obtain ⟨hhead, htail⟩ := hs
    simp only [btreeInsert] at h
    split at h
    · rename_i hlt
      simp only [Option.some.injEq] at h
      subst h
      rw [List.pairwise_cons]
      refine ⟨?_, ?_⟩
      · intro b hb
        simp only [List.mem_cons] at hb
        rcases hb with rfl | hb
        · exact hlt
        · exact htrans _ _ _ hlt (hhead b hb)
      · rw [List.pairwise_cons]
        exact ⟨hhead, htail⟩
    · split at h
      · exact absurd h (by simp)
      · rename_i hnlt hne
        rcases hrec : btreeInsert k v rest with _ | r
        · rw [hrec] at h
          exact absurd h (by simp)
        · rw [hrec] at h
          simp only [Option.some.injEq] at h
          subst h
          rw [List.pairwise_cons]
          refine ⟨?_, ih htail hrec⟩
          intro b hb
          rcases btreeInsert_mem hrec b hb with rfl | hb'
          · rcases htotal k k' hne with h1 | h1
            · exact absurd h1 hnlt
            · exact h1
          · exact hhead b hb'

/-- Folding a declaration list into the map yields a key-sorted list. -/
theorem btreeAddAll_sorted {κ α : Type} [DecidableEq κ] [LT κ]
    [∀ a b : κ, Decidable (a < b)]
    (htrans : ∀ a b c : κ, a < b → b < c → a < c)
    (htotal : ∀ a b : κ, a ≠ b → a < b ∨ b < a) :
    ∀ (decls acc sorted : List (κ × α)),
      List.Pairwise (fun p q => p.1 < q.1) acc →
      btreeAddAll acc decls = some sorted →
      List.Pairwise (fun p q => p.1 < q.1) sorted := by
  intro decls
  induction decls with
  | nil =>
    intro acc sorted hs h
    simp only [btreeAddAll, Option.some.injEq] at h
    subst h
    exact hs
  | cons hd rest ih =>
    intro acc sorted hs h
    rcases hd with ⟨k, v⟩
    simp only [btreeAddAll] at h
    rcases hins : btreeInsert k v acc with _ | acc'
    · rw [hins] at h
      exact absurd h (by simp)
    · rw [hins] at h
      exact ih acc' sorted (btreeInsert_sorted htrans htotal hs hins) h

/-- C3 (amended): MethodId assignment.  `Service.methods` is a
`BTreeMap<Identifier, Method>` (interface.rs), so MethodIds are assigned to
a service's methods by lexicographic order of the method names, starting at
0 — declaration order in the interface file determines the ids only when it
coincides with name order.  The assignment is consistent on both sides:
the id the generated proxy sends for a method is exactly the index whose
generated dispatch branch runs that method, and every assigned id is below
the method count. -/
theorem C3_method_id_assignment {α : Type} :
    ∀ (decls sorted : List (Ident × α)),
      btreeOfList decls = some sorted →
      List.Pairwise (fun p q => p.1 < q.1) sorted ∧
      serviceMethodIds decls = some (sorted.enum.map (fun p => (p.2.1, p.1))) ∧
      (∀ (name : Ident) (i : Nat),
        (name, i) ∈ sorted.enum.map (fun p => (p.2.1, p.1)) →
        dispatchTargetAt sorted i = some name ∧ i < sorted.length) := by
  intro decls sorted h
  refine ⟨?_, ?_, ?_⟩
  · exact btreeAddAll_sorted (fun _ _ _ hab hbc => lt_trans hab hbc)
      (fun _ _ hne => lt_or_gt_of_ne hne) decls [] sorted List.Pairwise.nil h
  · rw [serviceMethodIds, h]
    rfl
  · intro name i hmem
    simp only [List.mem_map] at hmem
    obtain ⟨p, hp, hpe⟩ := hmem
    rcases p with ⟨j, nm, val⟩
    simp only [Prod.mk.injEq] at hpe
    obtain ⟨rfl, rfl⟩ := hpe
    have hg := List.mem_enum_iff_getElem?.mp hp
    constructor
    · rw [dispatchTargetAt, hg]
      rfl
    · obtain ⟨hlt, -⟩ := List.getElem?_eq_some.mp hg
      exact hlt

/-- Witness for C3 at a concrete service: methods declared in the order
"f" (code 102) then "b" (code 98) get ids 1 and 0 respectively, by name
order. -/
theorem C3_method_id_assignment_witness :
    serviceMethodIds (α := Bool) [([102], true), ([98], false)] =
      some [([98], 0), ([102], 1)] := by
  have h := (C3_method_id_assignment [([102], true), ([98], false)]
    [([98], false), ([102], true)] (by decide)).2.1
  rw [h]
  decide

/-- Counterexample to C3 as literally stated: for a service declaring
method "foo" (codes [102, 111, 111]) first and "bar" (codes [98, 97, 114])
second, the first-declared method "foo" is assigned MethodId 1, not 0 —
the map orders the methods by name, "bar" before "foo". -/
theorem C3_method_id_assignment_counterexample :
    serviceMethodIds (α := Unit) [([102, 111, 111], ()), ([98, 97, 114], ())] =
      some [([98, 97, 114], 0), ([102, 111, 111], 1)] ∧
    ([102, 111, 111], 0) ∉ [([98, 97, 114], 0), ([102, 111, 111], 1)] :=
  ⟨by decide, by decide⟩

/-- C6 (amended): value marshaling.  Arguments are serialized as a
positional tuple in method declaration order (`non_self_params` is an
order-preserving `Vec`), and a record type is serialized as the
concatenation of its field encodings in lexicographic field-name order —
`Struct.fields` is a `BTreeMap<Identifier, DataType>`, so the generated
struct lists the fields name-sorted and declaration order is not preserved.
The primitive i32 little-endian two's complement encoding is the
spec-modelled `encI32` (the source delegates the byte format to the
external `rmp_serde` crate). -/
theorem C6_value_marshaling :
    (∀ (declFields sorted : List (Ident × Value)),
      btreeOfList declFields = some sorted →
      encodeStructDeclared declFields = some (encodeFields sorted) ∧
      List.Pairwise (fun p q => p.1 < q.1) sorted) ∧
    (∀ params : List (Ident × Value),
      serializeArguments params = encodeValues (params.map Prod.snd)) := by
  constructor
  · intro declFields sorted h
    constructor
    · rw [encodeStructDeclared, h]
      rfl
    · exact btreeAddAll_sorted (fun _ _ _ hab hbc => lt_trans hab hbc)
        (fun _ _ hne => lt_or_gt_of_ne hne) declFields [] sorted
        List.Pairwise.nil h
  · intro params
    rfl

/-- Witness for C6: the record declared with fields "y" (code 121) then "x"
(code 120) is encoded with the x field first. -/
theorem C6_value_marshaling_witness :
    encodeStructDeclared [([121], .vi32 1), ([120], .vi32 2)] =
      some (encodeFields [([120], .vi32 2), ([121], .vi32 1)]) :=
  (C6_value_marshaling.1 [([121], .vi32 1), ([120], .vi32 2)]
    [([120], .vi32 2), ([121], .vi32 1)] rfl).1

/-- Counterexample to C6 as literally stated: for the record declared with
fields "y" = 1 then "x" = 2, the code encodes [x, y] giving bytes
2,0,0,0,1,0,0,0, not the declaration-order concatenation 1,0,0,0,2,0,0,0. -/
theorem C6_value_marshaling_counterexample :
    encodeStructDeclared [([121], .vi32 1), ([120], .vi32 2)] =
      some [2, 0, 0, 0, 1, 0, 0, 0] ∧
    encodeStructSpecOrder [([121], .vi32 1), ([120], .vi32 2)] =
      [1, 0, 0, 0, 2, 0, 0, 0] ∧
    encodeStructDeclared [([121], .vi32 1), ([120], .vi32 2)] ≠
      some (encodeStructSpecOrder [([121], .vi32 1), ([120], .vi32 2)]) :=
  ⟨by decide, by decide, by decide⟩
